import Mathlib

/-!
Verification of the declaration-to-descriptor compiler of `godot-macros`.

The entry surface (`src/godot-macros/src/lib.rs`) is embedded directly:
token streams become lists of tokens, `venial::parse_declaration` and the
per-macro transforms become function parameters returning `Except`, and the
`translate` / `translate_meta` dispatchers become total Lean functions.

The compiler proper (modules `class`, `derive`, `util`, …) is not part of
the provided sources; the parts needed by the spec's testable properties
are modelled from the spec, each marked `Modelled from the spec:` in its
doc comment.
-/

namespace GodotMacros

/-- Delimiters of token groups (proc-macro `Group` delimiters). -/
inductive Delim where
  | paren
  | bracket
  | brace
  deriving DecidableEq, Repr

/-- Shallow embedding of a proc-macro token tree (`TokenStream` elements).
`punct` covers `#`, `!` and similar punctuation characters. -/
inductive Tok where
  | ident (s : String)
  | punct (c : Char)
  | lit (s : String)
  | group (d : Delim) (inner : List Tok)

/-- A `TokenStream` is a list of token trees. -/
abbrev TokenStream := List Tok

/-- Embedding of `venial::Error`: a source-located message.  The span is
kept abstract as a numeric source offset. -/
structure VError where
  span : Nat
  msg : String
  deriving DecidableEq, Repr

/-- Embedding of `venial::Error::to_compile_error`: the error becomes a
`compile_error!("…")` token stream, never a panic. -/
def VError.to_compile_error (e : VError) : TokenStream :=
  [Tok.ident "compile_error", Tok.punct '!',
   Tok.group Delim.paren [Tok.lit e.msg]]

/-- Embedding of the alias `type ParseResult<T> = Result<T, venial::Error>`
from `lib.rs`. -/
abbrev ParseResult (α : Type) := Except VError α

/-- Abstract stand-in for `venial::Declaration`; its structure is irrelevant
to the dispatch layer, which only passes it through. -/
structure Declaration where
  tokens : TokenStream

/-- Embedding of `fn translate<F>(input, transform)` from `lib.rs`:
parse the input, apply the transform, and on any error fall back to
`to_compile_error`.  The external `venial::parse_declaration` is a
parameter `parseDeclaration`. -/
def translate (parseDeclaration : TokenStream → ParseResult Declaration)
    (transform : Declaration → ParseResult TokenStream)
    (input : TokenStream) : TokenStream :=
  let input2 := input
  match (parseDeclaration input2).bind transform with
  | Except.ok out => out
  | Except.error e => e.to_compile_error

/-- Embedding of the `quote! { #[#self_name(#meta2)] #input2 }` expansion
inside `translate_meta`: the synthesized attribute is prepended to the
input token stream. -/
def withSelfAttr (self_name : String) (meta input : TokenStream) : TokenStream :=
  Tok.punct '#'
    :: Tok.group Delim.bracket [Tok.ident self_name, Tok.group Delim.paren meta]
    :: input

/-- Embedding of `fn translate_meta<F>(self_name, meta, input, transform)`
from `lib.rs`: the meta stream is spliced into a synthesized
`#[self_name(meta)]` attribute before the input, then parsed and
transformed exactly like `translate`. -/
def translate_meta (self_name : String) (meta input : TokenStream)
    (parseDeclaration : TokenStream → ParseResult Declaration)
    (transform : Declaration → ParseResult TokenStream) : TokenStream :=
  let input2 := input
  let meta2 := meta
  let input' := withSelfAttr self_name meta2 input2
  match (parseDeclaration input').bind transform with
  | Except.ok out => out
  | Except.error e => e.to_compile_error

end GodotMacros

namespace GodotMacros

/-- A source-located error message (§3 Data Model, "Diagnostic: source
location + message"). -/
structure Diagnostic where
  loc : Nat
  msg : String
  deriving DecidableEq, Repr

/-- The three bracket kinds whose nesting shields a comma from being an
argument separator (round parentheses, square brackets, curly braces). -/
inductive ABracket where
  | round
  | square
  | curly
  deriving DecidableEq, Repr

/-- Flat tokens of an attribute value expression.  Angle brackets and
closure pipes are separate tokens precisely because the grammar does NOT
treat them as nesting for the comma rule. -/
inductive ATok where
  | openB (b : ABracket)
  | closeB (b : ABracket)
  | comma
  | langle
  | rangle
  | pipe
  | eqSign
  | ident (s : String)
  | num (n : Int)
  | strLit (s : String)
  deriving DecidableEq, Repr

/-- Modelled from the spec: the attribute-argument splitter of the missing
attribute-resolver module (§4.2 ambiguity rule; doc comment in `lib.rs`
lines 76–92).  Tracks an explicit bracket depth over `(...)`, `[...]` and
`\x7b...\x7d` only; a comma at depth 0 ends the current argument. -/
def splitArgsGo : List ATok → Nat → List ATok → List (List ATok)
  | [], _, acc => [acc.reverse]
  | ATok.comma :: ts, 0, acc => acc.reverse :: splitArgsGo ts 0 []
  | ATok.comma :: ts, d + 1, acc => splitArgsGo ts (d + 1) (ATok.comma :: acc)
  | ATok.openB b :: ts, d, acc => splitArgsGo ts (d + 1) (ATok.openB b :: acc)
  | ATok.closeB b :: ts, d, acc => splitArgsGo ts (d - 1) (ATok.closeB b :: acc)
  | t :: ts, d, acc => splitArgsGo ts d (t :: acc)

/-- Modelled from the spec: split an attribute value token list into
arguments at top-level commas (§4.2). -/
def splitArgs (ts : List ATok) : List (List ATok) :=
  splitArgsGo ts 0 []

/-- One step of the bracket-depth count: only round/square/curly brackets
change the depth; angle brackets and pipes do not. -/
def depthStep (d : Nat) : ATok → Nat
  | ATok.openB _ => d + 1
  | ATok.closeB _ => d - 1
  | _ => d

/-- Bracket depth reached after scanning a token list, starting from `d`,
counting only round/square/curly brackets. -/
def rscDepth (d : Nat) : List ATok → Nat
  | [] => d
  | t :: ts => rscDepth (depthStep d t) ts

/-- Whether position `i` of `ts` is a top-level argument separator: a
comma whose prefix has bracket depth 0 (round/square/curly only). -/
def isTopLevelSep (ts : List ATok) (i : Nat) : Bool :=
  (ts.get? i == some ATok.comma) && (rscDepth 0 (ts.take i) == 0)

/-- Number of separator commas in `ts` when scanning starts at depth `d`. -/
def countSeps : Nat → List ATok → Nat
  | 0, ATok.comma :: ts => countSeps 0 ts + 1
  | d + 1, ATok.comma :: ts => countSeps (d + 1) ts
  | d, ATok.openB _ :: ts => countSeps (d + 1) ts
  | d, ATok.closeB _ :: ts => countSeps (d - 1) ts
  | d, _ :: ts => countSeps d ts
  | _, [] => 0

lemma splitArgsGo_length (ts : List ATok) :
    ∀ (d : Nat) (acc : List ATok),
      (splitArgsGo ts d acc).length = 1 + countSeps d ts := by
  induction ts with
  | nil => intro d acc; simp [splitArgsGo, countSeps]
  | cons t ts ih =>
      intro d acc
      cases t with
      | comma =>
          cases d with
          | zero => simp [splitArgsGo, countSeps, ih]; omega
          | succ d => simp [splitArgsGo, countSeps, ih]
      | openB b => simp [splitArgsGo, countSeps, ih]
      | closeB b => simp [splitArgsGo, countSeps, ih]
      | langle => simp [splitArgsGo, countSeps, ih]
      | rangle => simp [splitArgsGo, countSeps, ih]
      | pipe => simp [splitArgsGo, countSeps, ih]
      | eqSign => simp [splitArgsGo, countSeps, ih]
      | ident s => simp [splitArgsGo, countSeps, ih]
      | num n => simp [splitArgsGo, countSeps, ih]
      | strLit s => simp [splitArgsGo, countSeps, ih]

lemma countSeps_eq_countP (ts : List ATok) :
    ∀ d : Nat,
      countSeps d ts =
        (List.range ts.length).countP
          (fun i => (ts.get? i == some ATok.comma) &&
            (rscDepth d (ts.take i) == 0)) := by
  induction ts with
  | nil => intro d; simp [countSeps]
  | cons t ts ih =>
      intro d
      rw [List.length_cons, List.range_succ_eq_map]
      rw [List.countP_cons, List.countP_map]
      have hmap :
          ((fun i => ((t :: ts).get? i == some ATok.comma) &&
              (rscDepth d ((t :: ts).take i) == 0)) ∘ Nat.succ) =
            fun i => (ts.get? i == some ATok.comma) &&
              (rscDepth (depthStep d t) (ts.take i) == 0) := by
        funext i
        simp [Function.comp, List.get?, List.take, rscDepth]
      rw [hmap, ← ih (depthStep d t)]
      cases t with
      | comma =>
          cases d with
          | zero => simp [countSeps, depthStep, rscDepth]
          | succ d => simp [countSeps, depthStep, rscDepth]
      | openB b => simp [countSeps, depthStep, rscDepth]
      | closeB b => simp [countSeps, depthStep, rscDepth]
      | langle => simp [countSeps, depthStep, rscDepth]
      | rangle => simp [countSeps, depthStep, rscDepth]
      | pipe => simp [countSeps, depthStep, rscDepth]
      | eqSign => simp [countSeps, depthStep, rscDepth]
      | ident s => simp [countSeps, depthStep, rscDepth]
      | num n => simp [countSeps, depthStep, rscDepth]
      | strLit s => simp [countSeps, depthStep, rscDepth]

/-- Modelled from the spec: one entry of an enum/flags label table — a bare
label or `label = key`, the key being an arbitrary integer literal (§4.2). -/
def parseLabelEntry : List ATok → Except Diagnostic (String × Option Int)
  | [ATok.ident l] => Except.ok (l, none)
  | [ATok.ident l, ATok.eqSign, ATok.num k] => Except.ok (l, some k)
  | _ => Except.error ⟨0, "malformed label-table entry"⟩

/-- Modelled from the spec: numeric key assignment for enum/flags label
tables (§4.2): omitted keys default to a strictly increasing sequence
starting at 0, and the sequence resumes after an explicit key. -/
def assignKeys (next : Int) : List (String × Option Int) → List (String × Int)
  | [] => []
  | (l, none) :: rest => (l, next) :: assignKeys (next + 1) rest
  | (l, some k) :: rest => (l, k) :: assignKeys (k + 1) rest

/-- Modelled from the spec: parse a full enum/flags label table from the
tokens between the surrounding parentheses (§4.2): split at top-level
commas, parse each entry, then resolve the numeric keys. -/
def parseLabelTable (inner : List ATok) : Except Diagnostic (List (String × Int)) := do
  let entries ← (splitArgs inner).mapM parseLabelEntry
  return assignKeys 0 entries

/-- The attribute argument `flags = (A = 1, B = 2)`: a single directive
whose inner comma sits inside parentheses. -/
def flagsArgExample : List ATok :=
  [ATok.ident "flags", ATok.eqSign, ATok.openB ABracket.round,
   ATok.ident "A", ATok.eqSign, ATok.num 1, ATok.comma,
   ATok.ident "B", ATok.eqSign, ATok.num 2, ATok.closeB ABracket.round]

/-- The value expression `HashMap<i64, i64>`: its comma is nested only in
angle brackets, which do not count as nesting. -/
def angleArgExample : List ATok :=
  [ATok.ident "HashMap", ATok.langle, ATok.ident "i64", ATok.comma,
   ATok.ident "i64", ATok.rangle]

/-- The value expression `|x, y| x`: its comma is nested only in closure
pipes, which do not count as nesting. -/
def pipeArgExample : List ATok :=
  [ATok.pipe, ATok.ident "x", ATok.comma, ATok.ident "y", ATok.pipe,
   ATok.ident "x"]

/-- Claim C3: a top-level comma is an argument separator iff it is not
nested inside matched round/square/curly brackets: the number of split
arguments is one more than the number of commas whose prefix depth over
those three bracket kinds is 0 (angle brackets and pipes never shield a
comma).  In particular `flags = (A = 1, B = 2)` stays one directive whose
label table has the two entries `A = 1` and `B = 2`, while commas inside
`<...>` or `|...|` still split. -/
theorem splitArgs_top_level_comma_rule :
    (∀ ts : List ATok,
      (splitArgs ts).length =
        1 + (List.range ts.length).countP (fun i => isTopLevelSep ts i)) ∧
    splitArgs flagsArgExample = [flagsArgExample] ∧
    parseLabelTable (flagsArgExample.drop 3 |>.dropLast) =
      Except.ok [("A", 1), ("B", 2)] ∧
    splitArgs angleArgExample =
      [[ATok.ident "HashMap", ATok.langle, ATok.ident "i64"],
       [ATok.ident "i64", ATok.rangle]] ∧
    splitArgs pipeArgExample =
      [[ATok.pipe, ATok.ident "x"],
       [ATok.ident "y", ATok.pipe, ATok.ident "x"]] := by
  refine ⟨?_, by decide, by rfl, by decide, by decide⟩
  intro ts
  rw [splitArgs, splitArgsGo_length, countSeps_eq_countP]
  rfl

/-- Counter value after one label-table entry: an omitted key consumes the
current counter, an explicit key `k` restarts the sequence at `k + 1`. -/
def nextCounter (next : Int) : String × Option Int → Int
  | (_, none) => next + 1
  | (_, some k) => k + 1

/-- The numeric key resolved for entry `i` of a label table, when the
counter starts at `next`. -/
def nthKey (next : Int) (entries : List (String × Option Int)) (i : Nat) : Int :=
  ((assignKeys next entries).getD i ("", 0)).2

lemma nthKey_succ_cons (s : Int) (x : String × Option Int)
    (rest : List (String × Option Int)) (i : Nat) :
    nthKey s (x :: rest) (i + 1) = nthKey (nextCounter s x) rest i := by
  obtain ⟨l, k⟩ := x
  cases k <;> rfl

lemma nthKey_explicit (e : List (String × Option Int)) :
    ∀ (s : Int) (i : Nat) (l : String) (k : Int),
      e.get? i = some (l, some k) → nthKey s e i = k := by
  induction e with
  | nil => intro s i l k h; simp at h
  | cons x rest ih =>
      intro s i l k h
      cases i with
      | zero =>
          simp at h
          subst h
          rfl
      | succ i =>
          rw [nthKey_succ_cons]
          exact ih _ i l k (by simpa using h)

lemma nthKey_implicit_head (e : List (String × Option Int)) :
    ∀ (s : Int) (l : String), e.get? 0 = some (l, none) → nthKey s e 0 = s := by
  cases e with
  | nil => intro s l h; simp at h
  | cons x rest =>
      intro s l h
      simp at h
      subst h
      rfl

lemma nthKey_implicit_succ (e : List (String × Option Int)) :
    ∀ (s : Int) (i : Nat) (l : String),
      e.get? (i + 1) = some (l, none) →
        nthKey s e (i + 1) = nthKey s e i + 1 := by
  induction e with
  | nil => intro s i l h; simp at h
  | cons x rest ih =>
      intro s i l h
      have h' : rest.get? i = some (l, none) := by simpa using h
      cases i with
      | zero =>
          rw [nthKey_succ_cons, nthKey_implicit_head rest _ l h']
          obtain ⟨l', k'⟩ := x
          cases k' <;> simp [nthKey, assignKeys, nextCounter]
      | succ i =>
          rw [nthKey_succ_cons, nthKey_succ_cons]
          exact ih _ i l h'

/-- Claim C4: in a label table, explicit keys are honored; a label without
an explicit key gets 0 in first position and otherwise the previous
entry's key plus one (a strictly increasing sequence resuming after each
explicit key); the table `(A, B, C = 5, D)` resolves to keys
`(0, 1, 5, 6)`. -/
theorem enum_label_key_assignment (entries : List (String × Option Int)) :
    (∀ (i : Nat) (l : String) (k : Int),
      entries.get? i = some (l, some k) → nthKey 0 entries i = k) ∧
    (∀ l : String, entries.get? 0 = some (l, none) → nthKey 0 entries 0 = 0) ∧
    (∀ (i : Nat) (l : String), entries.get? (i + 1) = some (l, none) →
      nthKey 0 entries (i + 1) = nthKey 0 entries i + 1) ∧
    assignKeys 0 [("A", none), ("B", none), ("C", some 5), ("D", none)] =
      [("A", 0), ("B", 1), ("C", 5), ("D", 6)] :=
  ⟨fun i l k h => nthKey_explicit entries 0 i l k h,
   fun l h => nthKey_implicit_head entries 0 l h,
   fun i l h => nthKey_implicit_succ entries 0 i l h,
   by decide⟩

/-- Witness for C4 at the table `(A, B, C = 5, D)`: entry `C` keeps its
explicit key 5, entry `D` resumes at 6, entry `A` starts at 0. -/
theorem enum_label_key_assignment_witness :
    nthKey 0 [("A", none), ("B", none), ("C", some 5), ("D", none)] 2 = 5 ∧
    nthKey 0 [("A", none), ("B", none), ("C", some 5), ("D", none)] 3 =
      nthKey 0 [("A", none), ("B", none), ("C", some 5), ("D", none)] 2 + 1 ∧
    nthKey 0 [("A", none), ("B", none), ("C", some 5), ("D", none)] 0 = 0 :=
  ⟨(enum_label_key_assignment _).1 2 "C" 5 (by decide),
   (enum_label_key_assignment _).2.2.1 2 "D" (by decide),
   (enum_label_key_assignment _).2.1 "A" (by decide)⟩

/-- A parameter of the `range` export shorthand: a numeric literal or a
bare word flag such as `or_greater`. -/
inductive RangeParam where
  | num (q : ℚ)
  | flag (s : String)
  deriving DecidableEq, Repr

/-- Canonical hint parameters of a range export (§3 ExportDirective:
"range bounds + step + open-ended flags"). -/
structure RangeHint where
  min : ℚ
  max : ℚ
  step : Option ℚ
  orGreater : Bool
  orLess : Bool
  deriving DecidableEq, Repr

/-- Modelled from the spec: reading the trailing flags of a `range`
shorthand; `or_greater` opens the upper bound, `or_less` the lower bound,
and any unknown word is an error rather than silently ignored (§4.2). -/
def applyRangeFlags (h : RangeHint) : List RangeParam → Except Diagnostic RangeHint
  | [] => Except.ok h
  | RangeParam.flag "or_greater" :: rest =>
      applyRangeFlags { h with orGreater := true } rest
  | RangeParam.flag "or_less" :: rest =>
      applyRangeFlags { h with orLess := true } rest
  | _ => Except.error ⟨0, "invalid range parameter"⟩

/-- Modelled from the spec: expansion of the `range` export shorthand into
canonical hint parameters (§4.2 shorthand expansion table): the first two
numeric parameters are min and max, an optional third numeric parameter is
the step, and the remaining parameters are open-ended-bound flags. -/
def expandRange : List RangeParam → Except Diagnostic RangeHint
  | RangeParam.num lo :: RangeParam.num hi :: rest =>
      match rest with
      | RangeParam.num st :: rest' =>
          applyRangeFlags ⟨lo, hi, some st, false, false⟩ rest'
      | _ => applyRangeFlags ⟨lo, hi, none, false, false⟩ rest
  | _ => Except.error ⟨0, "range requires numeric min and max"⟩

/-- An accessor of a registered property: generated trivial, or a
user-named exposed function (§3 Property Descriptor). -/
inductive AccessorSpec where
  | generated
  | userNamed (s : String)
  deriving DecidableEq, Repr

/-- A resolved property (`var`) directive: optional getter and setter
configuration (§3 PropertyDirective). -/
structure PropertyDirective where
  getter : Option AccessorSpec
  setter : Option AccessorSpec
  deriving DecidableEq, Repr

/-- The default read-write property directive synthesized for exported
fields: both accessors generated. -/
def PropertyDirective.defaultReadWrite : PropertyDirective :=
  ⟨some AccessorSpec.generated, some AccessorSpec.generated⟩

/-- A resolved export directive (§3 ExportDirective): hint kind plus hint
parameters. -/
inductive ExportDirective where
  | plain
  | range (h : RangeHint)
  | labelTable (kind : String) (table : List (String × Int))
  | file (filter : Option String)
  | shorthand (kind : String)
  deriving DecidableEq, Repr

/-- Modelled from the spec: §4.3 defaulting — an export directive without
an accompanying property directive synthesizes a default read-write
property directive; a present property directive is kept as written. -/
def effectiveVar (v : Option PropertyDirective) (e : Option ExportDirective) :
    Option PropertyDirective :=
  match v, e with
  | some pd, _ => some pd
  | none, some _ => some PropertyDirective.defaultReadWrite
  | none, none => none

/-- Modelled from the spec: §3 Property Descriptor invariant — if neither
accessor is configured but a bare property directive exists, both are
generated; otherwise the configured accessors stand. -/
def effectiveAccessors (pd : PropertyDirective) :
    Option AccessorSpec × Option AccessorSpec :=
  match pd.getter, pd.setter with
  | none, none => (some AccessorSpec.generated, some AccessorSpec.generated)
  | g, s => (g, s)

/-- A field after directive resolution: name plus its optional property
and export directives. -/
structure RField where
  name : String
  varDir : Option PropertyDirective
  exportDir : Option ExportDirective
  deriving DecidableEq, Repr

instance : Inhabited RField := ⟨⟨"", none, none⟩⟩

/-- A property entry of the assembled Class Descriptor (§3): name, storage
field, accessor pair, and the export hint data carried through. -/
structure PropertyDescriptor where
  name : String
  storageField : String
  getter : Option AccessorSpec
  setter : Option AccessorSpec
  hintInfo : Option ExportDirective
  deriving DecidableEq, Repr

/-- Modelled from the spec: §4.3/§4.4 — the descriptor entry assembled for
one field: registered iff it has an effective property directive, carrying
its accessor pair and its export hint unchanged. -/
def fieldDescriptor (f : RField) : Option PropertyDescriptor :=
  match effectiveVar f.varDir f.exportDir with
  | none => none
  | some pd =>
      let acc := effectiveAccessors pd
      some ⟨f.name, f.name, acc.1, acc.2, f.exportDir⟩

/-- Claim C5: the `range` shorthand with parameters `(0.0, 10.0,
or_greater)` expands to the canonical triple min = 0, max = 10 with the
open-upper-bound flag set, and the assembled Property Descriptor carries
exactly those hint parameters. -/
theorem range_or_greater_canonical_triple :
    expandRange [RangeParam.num 0, RangeParam.num 10,
      RangeParam.flag "or_greater"] =
      Except.ok ⟨0, 10, none, true, false⟩ ∧
    fieldDescriptor ⟨"range_f64", none,
        some (ExportDirective.range ⟨0, 10, none, true, false⟩)⟩ =
      some ⟨"range_f64", "range_f64", some AccessorSpec.generated,
        some AccessorSpec.generated,
        some (ExportDirective.range ⟨0, 10, none, true, false⟩)⟩ := by
  exact ⟨rfl, rfl⟩

/-- Claim C6: a field carrying an export directive but no `var` directive
gets the synthesized default read-write property directive, so its
assembled descriptor has both a generated getter and a generated setter. -/
theorem export_without_var_generates_accessors (f : RField)
    (e : ExportDirective) (hvar : f.varDir = none)
    (hexp : f.exportDir = some e) :
    effectiveVar f.varDir f.exportDir = some PropertyDirective.defaultReadWrite ∧
    fieldDescriptor f = some ⟨f.name, f.name, some AccessorSpec.generated,
      some AccessorSpec.generated, some e⟩ := by
  constructor
  · simp [effectiveVar, hvar, hexp]
  · simp [fieldDescriptor, effectiveVar, hvar, hexp,
      PropertyDirective.defaultReadWrite, effectiveAccessors]

/-- Witness for C6: the exported field `health` with no `var` directive is
registered with generated getter and setter. -/
theorem export_without_var_generates_accessors_witness :
    effectiveVar (none : Option PropertyDirective)
        (some ExportDirective.plain) =
      some PropertyDirective.defaultReadWrite ∧
    fieldDescriptor ⟨"health", none, some ExportDirective.plain⟩ =
      some ⟨"health", "health", some AccessorSpec.generated,
        some AccessorSpec.generated, some ExportDirective.plain⟩ :=
  export_without_var_generates_accessors
    ⟨"health", none, some ExportDirective.plain⟩ ExportDirective.plain rfl rfl

/-- A method after directive resolution: name and whether it carries a
signal directive. -/
structure RMethod where
  name : String
  isSignal : Bool
  deriving DecidableEq, Repr

/-- A signal entry of the assembled Class Descriptor; the parameter list
is currently restricted to zero parameters (§3 SignalDirective). -/
structure SignalDescriptor where
  name : String
  deriving DecidableEq, Repr

/-- The signal descriptor contributed by one method, if any. -/
def methodSignal (m : RMethod) : Option SignalDescriptor :=
  if m.isSignal then some ⟨m.name⟩ else none

/-- Modelled from the spec: §4.4 — the ordered signal list of the
descriptor, in method declaration order. -/
def assembleSignals (ms : List RMethod) : List SignalDescriptor :=
  ms.filterMap methodSignal

/-- Modelled from the spec: §4.4 — the ordered property list of the
descriptor, in field declaration order. -/
def assembleProps (fields : List RField) : List PropertyDescriptor :=
  fields.filterMap fieldDescriptor

/-- Attribute resolution performed in an arbitrary processing order `ord`
over field indices, recording each field's resolved descriptor in a log. -/
def resolveLog (fields : List RField) (ord : List Nat) :
    List (Nat × Option PropertyDescriptor) :=
  ord.map fun i => (i, fieldDescriptor (fields.getD i default))

/-- Assembly reading the resolution log: fields are emitted in declaration
order regardless of the order in which the log was written. -/
def assemblePropsFromLog (fields : List RField) (ord : List Nat) :
    List PropertyDescriptor :=
  (List.range fields.length).filterMap fun i =>
    ((resolveLog fields ord).lookup i).join

lemma lookup_resolveLog (fields : List RField) :
    ∀ (ord : List Nat) (i : Nat), i ∈ ord →
      (resolveLog fields ord).lookup i =
        some (fieldDescriptor (fields.getD i default)) := by
  intro ord
  induction ord with
  | nil => intro i hi; simp at hi
  | cons j rest ih =>
      intro i hi
      by_cases h : i = j
      · subst h
        simp [resolveLog, List.lookup]
      · have hmem : i ∈ rest := by
          cases hi with
          | head => exact absurd rfl h
          | tail _ hmem => exact hmem
        have hb : (i == j) = false := by simp [h]
        simpa [resolveLog, List.lookup, hb] using ih i hmem

lemma range_map_getD {α : Type} (l : List α) (d : α) :
    (List.range l.length).map (fun i => l.getD i d) = l := by
  induction l with
  | nil => simp
  | cons x xs ih =>
      rw [List.length_cons, List.range_succ_eq_map, List.map_cons,
        List.map_map]
      have hcomp : ((fun i => (x :: xs).getD i d) ∘ Nat.succ) =
          fun i => xs.getD i d := by
        funext i
        rfl
      rw [hcomp, ih]
      rfl

lemma assemblePropsFromLog_eq (fields : List RField) (ord : List Nat)
    (h : ∀ i, i < fields.length → i ∈ ord) :
    assemblePropsFromLog fields ord = assembleProps fields := by
  unfold assemblePropsFromLog assembleProps
  have hcong : ∀ i ∈ List.range fields.length,
      ((resolveLog fields ord).lookup i).join =
        fieldDescriptor (fields.getD i default) := by
    intro i hi
    rw [lookup_resolveLog fields ord i (h i (List.mem_range.mp hi))]
    rfl
  rw [List.filterMap_congr hcong]
  conv_rhs => rw [← range_map_getD fields default]
  rw [List.filterMap_map]
  rfl

lemma fieldDescriptor_storageField (f : RField) (pd : PropertyDescriptor)
    (h : fieldDescriptor f = some pd) : pd.storageField = f.name := by
  unfold fieldDescriptor at h
  cases he : effectiveVar f.varDir f.exportDir with
  | none => rw [he] at h; simp at h
  | some pdd =>
      rw [he] at h
      simp at h
      rw [← h]

lemma assembleProps_names (fields : List RField) :
    (assembleProps fields).map (fun p => p.storageField) =
      (fields.filter fun f => (fieldDescriptor f).isSome).map
        (fun f => f.name) := by
  induction fields with
  | nil => rfl
  | cons f fs ih =>
      cases h : fieldDescriptor f with
      | none =>
          simp [assembleProps, List.filterMap_cons, h, List.filter_cons,
            Option.isSome] at ih ⊢
          exact ih
      | some pd =>
          have hst := fieldDescriptor_storageField f pd h
          simp [assembleProps, List.filterMap_cons, h, List.filter_cons,
            Option.isSome, hst] at ih ⊢
          exact ih

lemma assembleSignals_names (ms : List RMethod) :
    (assembleSignals ms).map (fun s => s.name) =
      (ms.filter fun m => m.isSignal).map (fun m => m.name) := by
  induction ms with
  | nil => rfl
  | cons m rest ih =>
      by_cases h : m.isSignal
      · simp [assembleSignals, methodSignal, List.filterMap_cons, h,
          List.filter_cons, ih]
        exact ih
      · simp [assembleSignals, methodSignal, List.filterMap_cons, h,
          List.filter_cons, ih]
        exact ih

/-- Claim C7: the assembled descriptor's property order equals field
declaration order — assembling from a resolution log written in ANY order
that covers all fields (any permutation of the field indices) equals the
declaration-order assembly, whose property names are exactly the
registered fields' names in declaration order; likewise signal order
equals method declaration order. -/
theorem descriptor_order_eq_declaration_order (fields : List RField)
    (ms : List RMethod) (ord : List Nat)
    (hperm : ord.Perm (List.range fields.length)) :
    assemblePropsFromLog fields ord = assembleProps fields ∧
    (assembleProps fields).map (fun p => p.storageField) =
      (fields.filter fun f => (fieldDescriptor f).isSome).map
        (fun f => f.name) ∧
    (assembleSignals ms).map (fun s => s.name) =
      (ms.filter fun m => m.isSignal).map (fun m => m.name) := by
  refine ⟨?_, assembleProps_names fields, assembleSignals_names ms⟩
  refine assemblePropsFromLog_eq fields ord ?_
  intro i hi
  exact hperm.mem_iff.mpr (List.mem_range.mpr hi)

/-- Witness for C7: two fields resolved in reversed order `[1, 0]` still
assemble in declaration order `a, b`. -/
theorem descriptor_order_eq_declaration_order_witness :
    assemblePropsFromLog
        [⟨"a", some PropertyDirective.defaultReadWrite, none⟩,
         ⟨"b", some PropertyDirective.defaultReadWrite, none⟩] [1, 0] =
      assembleProps
        [⟨"a", some PropertyDirective.defaultReadWrite, none⟩,
         ⟨"b", some PropertyDirective.defaultReadWrite, none⟩] ∧
    (assembleProps
        [⟨"a", some PropertyDirective.defaultReadWrite, none⟩,
         ⟨"b", some PropertyDirective.defaultReadWrite, none⟩]).map
        (fun p => p.storageField) =
      ([⟨"a", some PropertyDirective.defaultReadWrite, none⟩,
        ⟨"b", some PropertyDirective.defaultReadWrite, none⟩].filter
          fun f => (fieldDescriptor f).isSome).map (fun f => f.name) ∧
    (assembleSignals [⟨"hit", true⟩, ⟨"helper", false⟩]).map
        (fun s => s.name) =
      ([⟨"hit", true⟩, (⟨"helper", false⟩ : RMethod)].filter
          fun m => m.isSignal).map (fun m => m.name) :=
  descriptor_order_eq_declaration_order
    [⟨"a", some PropertyDirective.defaultReadWrite, none⟩,
     ⟨"b", some PropertyDirective.defaultReadWrite, none⟩]
    [⟨"hit", true⟩, ⟨"helper", false⟩] [1, 0] (by decide)

/-- The class-level directive keys (§6 attribute surface). -/
inductive ClassKey where
  | base
  | init
  | noInit
  | tool
  | editorPlugin
  | rename
  | hide
  deriving DecidableEq, Repr

/-- The field-level directive keys (§6 attribute surface). -/
inductive FieldKey where
  | var
  | exportKey
  | init
  | hint
  deriving DecidableEq, Repr

/-- The method-level directive keys (§6 attribute surface). -/
inductive MethodKey where
  | func
  | signal
  deriving DecidableEq, Repr

/-- Modelled from the spec: recognition of class-level keys; an unknown
key is a diagnostic, not silently ignored (§4.2, §6). -/
def parseClassKey (s : String) : Except Diagnostic ClassKey :=
  if s = "base" then Except.ok ClassKey.base
  else if s = "init" then Except.ok ClassKey.init
  else if s = "no_init" then Except.ok ClassKey.noInit
  else if s = "tool" then Except.ok ClassKey.tool
  else if s = "editor_plugin" then Except.ok ClassKey.editorPlugin
  else if s = "rename" then Except.ok ClassKey.rename
  else if s = "hide" then Except.ok ClassKey.hide
  else Except.error ⟨0, "unrecognized class-level key"⟩

/-- Modelled from the spec: recognition of field-level keys; an unknown
key is a diagnostic, not silently ignored (§4.2, §6). -/
def parseFieldKey (s : String) : Except Diagnostic FieldKey :=
  if s = "var" then Except.ok FieldKey.var
  else if s = "export" then Except.ok FieldKey.exportKey
  else if s = "init" then Except.ok FieldKey.init
  else if s = "hint" then Except.ok FieldKey.hint
  else Except.error ⟨0, "unrecognized field-level key"⟩

/-- Modelled from the spec: recognition of method-level keys; an unknown
key is a diagnostic, not silently ignored (§4.2, §6). -/
def parseMethodKey (s : String) : Except Diagnostic MethodKey :=
  if s = "func" then Except.ok MethodKey.func
  else if s = "signal" then Except.ok MethodKey.signal
  else Except.error ⟨0, "unrecognized method-level key"⟩

/-- Whether an `Except` computation succeeded. -/
def exceptOk {ε α : Type} : Except ε α → Bool
  | Except.ok _ => true
  | Except.error _ => false

/-- Claim C8: the accepted attribute surface is exactly
`base, init, no_init, tool, editor_plugin, rename, hide` at class level,
`var, export, init, hint` at field level and `func, signal` at method
level; every other key at the corresponding level is rejected with a
diagnostic. -/
theorem attribute_surface_exact (s : String) :
    (exceptOk (parseClassKey s) = true ↔
      s ∈ ["base", "init", "no_init", "tool", "editor_plugin", "rename",
        "hide"]) ∧
    (exceptOk (parseFieldKey s) = true ↔
      s ∈ ["var", "export", "init", "hint"]) ∧
    (exceptOk (parseMethodKey s) = true ↔ s ∈ ["func", "signal"]) := by
  refine ⟨?_, ?_, ?_⟩
  · unfold parseClassKey
    split_ifs <;> simp_all [exceptOk]
  · unfold parseFieldKey
    split_ifs <;> simp_all [exceptOk]
  · unfold parseMethodKey
    split_ifs <;> simp_all [exceptOk]

/-- A field-role inference hint (§3 FieldRoleHint): `hint(base)`,
`hint(no_base)`, `hint(onready)`, `hint(no_onready)`. -/
inductive FieldRoleHint where
  | forceBase
  | forceNoBase
  | forceOnready
  | forceNoOnready
  deriving DecidableEq, Repr

/-- The resolved role of a field (§3 Field). -/
inductive FieldRole where
  | plainData
  | baseHandle
  | onreadyHandle
  deriving DecidableEq, Repr

/-- Modelled from the spec: field-role classification (§4.3, §9): the
explicit hint override table is consulted before type-pattern inference,
and the hint wins whenever it speaks to the classification. -/
def resolveRole (hint : Option FieldRoleHint)
    (typeMatchesBase typeMatchesOnready : Bool) : FieldRole :=
  let isBase :=
    match hint with
    | some FieldRoleHint.forceBase => true
    | some FieldRoleHint.forceNoBase => false
    | _ => typeMatchesBase
  let isOnready :=
    match hint with
    | some FieldRoleHint.forceOnready => true
    | some FieldRoleHint.forceNoOnready => false
    | _ => typeMatchesOnready
  if isBase then FieldRole.baseHandle
  else if isOnready then FieldRole.onreadyHandle
  else FieldRole.plainData

/-- Claim C9: an explicit field-role hint decides the classification
regardless of whether the declared type matches the corresponding type
pattern; in particular `hint(base)` on a field whose type does not match
the base-handle pattern still classifies it as the base handle, and the
negative hints forbid the classification even on matching types. -/
theorem role_hint_overrides_type_inference (tb tr : Bool) :
    resolveRole (some FieldRoleHint.forceBase) tb tr = FieldRole.baseHandle ∧
    resolveRole (some FieldRoleHint.forceNoBase) tb tr =
      (if tr then FieldRole.onreadyHandle else FieldRole.plainData) ∧
    resolveRole (some FieldRoleHint.forceOnready) tb tr =
      (if tb then FieldRole.baseHandle else FieldRole.onreadyHandle) ∧
    resolveRole (some FieldRoleHint.forceNoOnready) tb tr =
      (if tb then FieldRole.baseHandle else FieldRole.plainData) := by
  cases tb <;> cases tr <;> exact ⟨rfl, rfl, rfl, rfl⟩

/-- The construction policy of a class (§3): generated constructor,
user-provided constructor, or construction disabled. -/
inductive ConstructionPolicy where
  | generated
  | userProvided
  | disabled
  deriving DecidableEq, Repr

/-- The ambiguous-construction diagnostic (§4.3, §8): the type is neither
constructible nor explicitly non-constructible. -/
def ambiguousConstruction : Diagnostic :=
  ⟨0, "ambiguous construction: neither init nor no_init specified and no init override found"⟩

/-- Modelled from the spec: §4.3 construction-policy resolution: `init`
and `no_init` conflict; `init` conflicts with a user override; with
neither key, an override means user-provided construction, and no
override at all is the ambiguous-construction error — never a silent
default. -/
def resolvePolicy (hasInit hasNoInit hasOverride : Bool) :
    Except Diagnostic ConstructionPolicy :=
  if hasInit && hasNoInit then
    Except.error ⟨0, "conflicting construction policy"⟩
  else if hasInit && hasOverride then
    Except.error ⟨0, "generated constructor conflicts with init override"⟩
  else if hasInit then Except.ok ConstructionPolicy.generated
  else if hasNoInit then Except.ok ConstructionPolicy.disabled
  else if hasOverride then Except.ok ConstructionPolicy.userProvided
  else Except.error ambiguousConstruction

/-- A class declaration after attribute resolution: its class-level keys
and its methods. -/
structure ClassDecl where
  classKeys : List ClassKey
  methods : List RMethod
  deriving DecidableEq, Repr

/-- Modelled from the spec: declaration-level construction resolution:
the policy keys come from the class attribute and the constructor
lifecycle override is a method named `init` (§4.3). -/
def resolveConstruction (d : ClassDecl) :
    Except Diagnostic ConstructionPolicy :=
  resolvePolicy (d.classKeys.contains ClassKey.init)
    (d.classKeys.contains ClassKey.noInit)
    (d.methods.any fun m => m.name == "init")

/-- Claim C2: a struct declaration with neither the `init` nor the
`no_init` class-level key and no user-provided constructor override fails
with the ambiguous-construction diagnostic; no construction policy is
silently defaulted. -/
theorem missing_policy_is_ambiguous_construction (d : ClassDecl)
    (hInit : ClassKey.init ∉ d.classKeys)
    (hNoInit : ClassKey.noInit ∉ d.classKeys)
    (hOverride : ∀ m ∈ d.methods, m.name ≠ "init") :
    resolveConstruction d = Except.error ambiguousConstruction := by
  have h1 : d.classKeys.contains ClassKey.init = false := by
    simpa using hInit
  have h2 : d.classKeys.contains ClassKey.noInit = false := by
    simpa using hNoInit
  have h3 : (d.methods.any fun m => m.name == "init") = false := by
    simp only [List.any_eq_false]
    intro m hm
    simpa using hOverride m hm
  unfold resolveConstruction
  rw [h1, h2, h3]
  rfl

/-- Witness for C2: a declaration with only a `tool` key and a `ready`
method resolves to the ambiguous-construction diagnostic. -/
theorem missing_policy_is_ambiguous_construction_witness :
    resolveConstruction ⟨[ClassKey.tool], [⟨"ready", false⟩]⟩ =
      Except.error ambiguousConstruction :=
  missing_policy_is_ambiguous_construction
    ⟨[ClassKey.tool], [⟨"ready", false⟩]⟩
    (by decide) (by decide) (by decide)

/-- Claim C1: `translate` is total: for every input it returns either the
transform's output (when parsing and transforming both succeed) or the
error converted via `to_compile_error`; a failing declaration yields a
diagnostic token stream, never an uncatchable abort and never a
descriptor. -/
theorem translate_total_diagnostic_or_output
    (parseDeclaration : TokenStream → ParseResult Declaration)
    (transform : Declaration → ParseResult TokenStream)
    (input : TokenStream) :
    (∃ d out, parseDeclaration input = Except.ok d ∧
      transform d = Except.ok out ∧
      translate parseDeclaration transform input = out) ∨
    (∃ e, (parseDeclaration input).bind transform = Except.error e ∧
      translate parseDeclaration transform input = e.to_compile_error) := by
  cases hp : parseDeclaration input with
  | error e =>
      right
      refine ⟨e, ?_, ?_⟩ <;> simp [translate, Except.bind, hp]
  | ok d =>
      cases ht : transform d with
      | error e =>
          right
          refine ⟨e, ?_, ?_⟩ <;> simp [translate, Except.bind, hp, ht]
      | ok out =>
          left
          refine ⟨d, out, ?_, ?_, ?_⟩ <;> simp [translate, Except.bind, hp, ht]

/-- Claim C10: `translate_meta name meta input` coincides with `translate`
applied to the input prefixed with the synthesized `#[name(meta)]`
attribute: both paths parse with the same parser, apply the same
transform, and fall back to the same compile-error conversion. -/
theorem translate_meta_eq_translate_withSelfAttr
    (self_name : String) (meta input : TokenStream)
    (parseDeclaration : TokenStream → ParseResult Declaration)
    (transform : Declaration → ParseResult TokenStream) :
    translate_meta self_name meta input parseDeclaration transform =
      translate parseDeclaration transform (withSelfAttr self_name meta input) := by
  rfl

end GodotMacros
